import Mathlib

/-!
Shallow embedding of the query engine in `src/src/query/Query.ts`
(vuex-orm-next). The `Query` class accumulates where clauses, order
directives, limit/offset and eager-load registrations, and executes
retrieval, revival and mutation against a flat record store.

Pure data (records, models, clause lists) becomes Lean data; the class's
mutable fields become an explicit `QueryState`; methods that mutate state
return the new state. External collaborators (Connection, model metadata,
Relation, Utils helpers) are not in `src/`; they are modelled from the
spec where a claim needs them, and each such definition is marked
"Modelled from the spec:".
-/

namespace VuexOrm

/-- JavaScript runtime values that appear in records and where clauses.
Arrays and functions are represented separately in the clause type, as in
the spec's tagged-union design note. -/
inductive Value where
  | num : Int → Value
  | str : String → Value
  | bool : Bool → Value
  | null : Value
  | undef : Value
deriving DecidableEq, Repr

/-- A flat record: field name to value, as stored in the Connection. -/
abbrev Rec := List (String × Value)

/-- First-match association-list lookup (JS object / map access). -/
def alookup {α : Type} : List (String × α) → String → Option α
  | [], _ => none
  | (k, v) :: rest, key => if k = key then some v else alookup rest key

/-- JS object property assignment: replace the value in place when the key
exists, append a new entry otherwise. -/
def aupsert {α : Type} : List (String × α) → String → α → List (String × α)
  | [], key, v => [(key, v)]
  | (k, w) :: rest, key, v =>
    if k = key then (k, v) :: rest else (k, w) :: aupsert rest key v

/-- Whether the key is present in the association list. -/
def hasKey {α : Type} (l : List (String × α)) (key : String) : Bool :=
  (alookup l key).isSome

mutual
/-- A hydrated model instance: its attribute record plus the relation
attributes attached by eager loading or revival (absent after plain
hydration, which passes relations: false). -/
inductive ModelInst where
  | mk : Rec → List (String × RelVal) → ModelInst

/-- A value stored in a model's relation attribute: a nullable single
related model or a collection of related models. -/
inductive RelVal where
  | one : Option ModelInst → RelVal
  | many : List ModelInst → RelVal
end

/-- Attribute record of a model. -/
def ModelInst.attrs : ModelInst → Rec
  | .mk a _ => a

/-- Relation attributes attached to a model. -/
def ModelInst.related : ModelInst → List (String × RelVal)
  | .mk _ r => r

/-- JS property read model[field] over the attribute record; a missing
field reads as undefined. -/
def getAttr (m : ModelInst) (field : String) : Value :=
  (alookup m.attrs field).getD Value.undef

/-- model[key] = value on a relation attribute (Query.ts line 458). -/
def setRelated (m : ModelInst) (name : String) (v : RelVal) : ModelInst :=
  .mk m.attrs (aupsert m.related name v)

/-- Field slot of a where clause: a field name or a primary closure of the
whole model (WherePrimaryClosure). -/
inductive WhereField where
  | fname : String → WhereField
  | pred : (ModelInst → Bool) → WhereField

/-- Value slot of a where clause: a scalar, an array (membership), or a
secondary closure of the field value (WhereSecondaryClosure). -/
inductive WhereValue where
  | val : Value → WhereValue
  | arr : List Value → WhereValue
  | pred : (Value → Bool) → WhereValue

/-- The boolean connector carried by each where clause. -/
inductive WhereBool where
  | and : WhereBool
  | or : WhereBool
deriving DecidableEq, Repr

/-- A where clause as pushed by where / whereIn / whereId / orWhere. -/
structure Where where
  field : WhereField
  value : WhereValue
  boolean : WhereBool

/-- Order directive field slot: a field name or a sort-value selector. -/
inductive OrderField where
  | fname : String → OrderField
  | selector : (ModelInst → Value) → OrderField

/-- Sort direction of an order directive. -/
inductive OrderDirection where
  | asc : OrderDirection
  | desc : OrderDirection
deriving DecidableEq, Repr

/-- An order directive as pushed by orderBy. -/
structure Order where
  field : OrderField
  direction : OrderDirection

/-- Eager-load constraint closures, embedded deeply so that a query state
can store them. noop is the default empty callback of with; recurseIfPos
d is the closure registered by withAllRecursive d, whose body runs
withAllRecursive (d - 1) on the sub-query exactly when d is positive. -/
inductive EagerConstraint where
  | noop : EagerConstraint
  | recurseIfPos : Nat → EagerConstraint
deriving DecidableEq, Repr

/-- Kind of a field in the model metadata: a plain attribute or a relation
to another entity. Modelled from the spec: the Relation collaborator is
polymorphic (belongs-to, has-many, ...); each relation kind carries the
related entity and the foreign key used for eager constraints/matching. -/
inductive FieldDescr where
  | attr : FieldDescr
  | hasMany : String → String → FieldDescr
  | belongsTo : String → String → FieldDescr
deriving DecidableEq, Repr

/-- The related entity of a relation field, none for plain attributes. -/
def relatedEntity : FieldDescr → Option String
  | .attr => none
  | .hasMany r _ => some r
  | .belongsTo r _ => some r

/-- Modelled from the spec: the model-metadata collaborator. entity names
the store region; keyName / hasCompositeKey describe the primary key;
newInstanceAttrs is the composite of newInstance (relations: false) and
getAttributes, i.e. metadata-driven construction of the attribute record;
fields lists the field descriptors. -/
structure ModelMeta where
  entity : String
  keyName : String
  hasCompositeKey : Bool
  newInstanceAttrs : Rec → Rec
  fields : List (String × FieldDescr)

/-- Fallback metadata for lookups of unknown entities. -/
def defaultMeta : ModelMeta :=
  { entity := "", keyName := "id", hasCompositeKey := false,
    newInstanceAttrs := fun r => r, fields := [] }

/-- The database: entity name to model metadata. -/
abbrev Database := List (String × ModelMeta)

/-- database.getModel. -/
def getModel (db : Database) (name : String) : ModelMeta :=
  (alookup db name).getD defaultMeta

/-- One entity's flat record map, in insertion order. -/
abbrev Store := List (String × Rec)

/-- All entities' stores. -/
abbrev Stores := List (String × Store)

/-- The accumulated directive state of a Query instance: its mutable
fields wheres, orders, take, skip and eagerLoad, plus the model. -/
structure QueryState where
  model : ModelMeta
  wheres : List Where
  orders : List Order
  take : Option Nat
  skip : Nat
  eagerLoad : List (String × EagerConstraint)

/-- A freshly constructed Query for the given model. -/
def freshQuery (meta : ModelMeta) : QueryState :=
  { model := meta, wheres := [], orders := [], take := none, skip := 0,
    eagerLoad := [] }

/-- Query.where: push an and-connected clause. -/
def whereQ (field : WhereField) (value : WhereValue) (q : QueryState) :
    QueryState :=
  { q with wheres := q.wheres ++ [⟨field, value, .and⟩] }

/-- Query.orWhere: push an or-connected clause. -/
def orWhereQ (field : WhereField) (value : WhereValue) (q : QueryState) :
    QueryState :=
  { q with wheres := q.wheres ++ [⟨field, value, .or⟩] }

/-- Query.whereIn: a field clause whose value is a membership array. -/
def whereInQ (field : String) (values : List Value) (q : QueryState) :
    QueryState :=
  whereQ (.fname field) (.arr values) q

/-- Query.whereId with a single id: where(keyName, id). -/
def whereIdOne (id : Value) (q : QueryState) : QueryState :=
  whereQ (.fname q.model.keyName) (.val id) q

/-- Query.whereId with a list of ids: where(keyName, ids). -/
def whereIdIn (ids : List Value) (q : QueryState) : QueryState :=
  whereQ (.fname q.model.keyName) (.arr ids) q

/-- Query.orderBy: push an order directive. -/
def orderByQ (field : OrderField) (direction : OrderDirection)
    (q : QueryState) : QueryState :=
  { q with orders := q.orders ++ [⟨field, direction⟩] }

/-- Query.limit: set the take value. -/
def limitQ (value : Nat) (q : QueryState) : QueryState :=
  { q with take := some value }

/-- Query.offset: set the skip value. -/
def offsetQ (value : Nat) (q : QueryState) : QueryState :=
  { q with skip := value }

/-- Query.with: register an eager load for the relation name; one entry
per name, last registration for a name wins. -/
def withQ (name : String) (c : EagerConstraint) (q : QueryState) :
    QueryState :=
  { q with eagerLoad := aupsert q.eagerLoad name c }

/-- Query.withAll: register the constraint for every field of the model
that is a relation attribute. -/
def withAllQ (c : EagerConstraint) (q : QueryState) : QueryState :=
  q.model.fields.foldl
    (fun acc nf =>
      match relatedEntity nf.2 with
      | some _ => withQ nf.1 c acc
      | none => acc)
    q

/-- Query.withAllRecursive: withAll with a constraint whose body recurses
with depth - 1 when depth is positive (Query.ts lines 198-204). -/
def withAllRecursive (depth : Nat) (q : QueryState) : QueryState :=
  withAllQ (.recurseIfPos depth) q

/-- Run a stored eager-load constraint closure on a sub-query. -/
def applyConstraint : EagerConstraint → QueryState → QueryState
  | .noop, q => q
  | .recurseIfPos d, q => if 0 < d then withAllRecursive (d - 1) q else q

/-- Connection.get for the query's entity: its flat record map.
Modelled from the spec: the Connection reads the entity's store region. -/
def connGet (sts : Stores) (meta : ModelMeta) : Store :=
  (alookup sts meta.entity).getD []

/-- Connection.find: one record of the entity by store index id. -/
def connFind (sts : Stores) (meta : ModelMeta) (id : String) : Option Rec :=
  alookup (connGet sts meta) id

/-- Replace one entity's store region. -/
def setStore (sts : Stores) (meta : ModelMeta) (s : Store) : Stores :=
  aupsert sts meta.entity s

/-- Connection.save: merge-capable batched write; each element of the
batch is written under its id. Modelled from the spec. -/
def connSave (sts : Stores) (meta : ModelMeta) (batch : List (String × Rec)) :
    Stores :=
  setStore sts meta
    (batch.foldl (fun s idRec => aupsert s idRec.1 idRec.2) (connGet sts meta))

/-- Connection.destroy: remove the given index ids from the entity's
store. Modelled from the spec. -/
def connDestroy (sts : Stores) (meta : ModelMeta) (ids : List String) :
    Stores :=
  setStore sts meta
    ((connGet sts meta).filter (fun idRec => decide (idRec.1 ∉ ids)))

/-- Query.hydrate on one record: newInstance with relations: false, so no
relation attribute is populated. -/
def hydrate (meta : ModelMeta) (record : Rec) : ModelInst :=
  .mk (meta.newInstanceAttrs record) []

/-- Query.all: fetch the whole record map and hydrate every record,
bypassing the query chain. -/
def allModels (sts : Stores) (meta : ModelMeta) : List ModelInst :=
  (connGet sts meta).map (fun idRec => hydrate meta idRec.2)

/-- Query.whereComparator: match one clause against one model, with the
source's priority: primary closure, then array membership, then secondary
closure, then strict equality. -/
def whereComparator (m : ModelInst) (w : Where) : Bool :=
  match w.field with
  | .pred p => p m
  | .fname f =>
    match w.value with
    | .arr vs => vs.contains (getAttr m f)
    | .pred p => p (getAttr m f)
    | .val v => getAttr m f == v

/-- The and-connected clauses, in order (the groupBy in
getWhereComparator; groupBy itself lives in Utils, outside src). -/
def andGroup (ws : List Where) : List Where :=
  ws.filter (fun w => w.boolean == WhereBool.and)

/-- The or-connected clauses, in order. -/
def orGroup (ws : List Where) : List Where :=
  ws.filter (fun w => w.boolean == WhereBool.or)

/-- Query.getWhereComparator: push the and-group's every-result and the
or-group's some-result when the groups are non-empty, then test whether
any pushed result is true. -/
def getWhereComparator (ws : List Where) (m : ModelInst) : Bool :=
  let results : List Bool :=
    (if (andGroup ws).isEmpty then []
     else [(andGroup ws).all (fun w => whereComparator m w)]) ++
    (if (orGroup ws).isEmpty then []
     else [(orGroup ws).any (fun w => whereComparator m w)])
  results.contains true

/-- Query.filterWhere: keep the models passing the comparator; with no
registered clause the collection is returned unchanged. -/
def filterWhere (ws : List Where) (models : List ModelInst) :
    List ModelInst :=
  if ws.isEmpty then models
  else models.filter (fun m => getWhereComparator ws m)

/-- Comparison of two sort keys. Modelled from the spec: order directives
produce sortable values; values of the same shape compare by their
natural order. -/
def compareValue : Value → Value → Ordering
  | .num a, .num b => compare a b
  | .str a, .str b => compare a b
  | .bool a, .bool b => compare a b
  | _, _ => .eq

/-- The sort key an order directive extracts from a model. -/
def orderKey (m : ModelInst) : OrderField → Value
  | .fname f => getAttr m f
  | .selector sel => sel m

/-- Compare two models under the ordered list of order directives, each
direction applied independently. -/
def compareModels (orders : List Order) (a b : ModelInst) : Ordering :=
  match orders with
  | [] => .eq
  | o :: rest =>
    let c := compareValue (orderKey a o.field) (orderKey b o.field)
    let c := match o.direction with
      | .asc => c
      | .desc => c.swap
    match c with
    | .eq => compareModels rest a b
    | r => r

/-- Stable insertion into a sorted list: the new element goes before the
first element it does not strictly follow. -/
def insertSorted (cmp : ModelInst → ModelInst → Ordering) (a : ModelInst) :
    List ModelInst → List ModelInst
  | [] => [a]
  | b :: rest =>
    match cmp a b with
    | .gt => b :: insertSorted cmp a rest
    | _ => a :: b :: rest

/-- Stable multi-key sort. Modelled from the spec: Utils.orderBy is a
stable sort over the directive-extracted keys. -/
def sortStable (cmp : ModelInst → ModelInst → Ordering) :
    List ModelInst → List ModelInst
  | [] => []
  | a :: rest => insertSorted cmp a (sortStable cmp rest)

/-- Query.filterOrder: sort by the registered order directives; with no
directive the collection is returned unchanged. -/
def filterOrder (orders : List Order) (models : List ModelInst) :
    List ModelInst :=
  if orders.isEmpty then models
  else sortStable (compareModels orders) models

/-- Query.filterLimit: slice(skip, skip + take) when take is set, else
slice(skip). -/
def filterLimit (take : Option Nat) (skip : Nat)
    (models : List ModelInst) : List ModelInst :=
  match take with
  | some t => ((models.take (skip + t)).drop skip)
  | none => models.drop skip

/-- Query.select: all, then filter-where, filter-order, filter-limit in
that fixed order. -/
def select (sts : Stores) (q : QueryState) : List ModelInst :=
  filterLimit q.take q.skip
    (filterOrder q.orders
      (filterWhere q.wheres (allModels sts q.model)))

/-- The string store index id derived from a primary-key value.
Modelled from the spec: getIndexId composes the store key from the key
value(s). -/
def toIdString : Value → String
  | .num n => toString n
  | .str s => s
  | .bool b => toString b
  | .null => "null"
  | .undef => "undefined"

/-- model.getIndexId for a hydrated model (single primary key). -/
def modelIndexId (meta : ModelMeta) (m : ModelInst) : String :=
  toIdString (getAttr m meta.keyName)

/-- Relation.addEagerConstraints: constrain the sub-query to the rows
related to the parent models. Modelled from the spec: for has-many, the
related foreign key must be among the parents' primary keys; for
belongs-to, the related primary key must be among the parents' foreign
keys. -/
def addEagerCons (db : Database) (fd : FieldDescr) (parentMeta : ModelMeta)
    (models : List ModelInst) (sub : QueryState) : QueryState :=
  match fd with
  | .attr => sub
  | .hasMany _ fk =>
    whereInQ fk (models.map (fun m => getAttr m parentMeta.keyName)) sub
  | .belongsTo rEnt fk =>
    whereInQ (getModel db rEnt).keyName (models.map (fun m => getAttr m fk))
      sub

/-- Relation.match: attach the eager results onto each parent model's
relation attribute. Modelled from the spec: has-many collects the related
rows whose foreign key equals the parent's key; belongs-to picks the
related row whose key equals the parent's foreign key. -/
def matchRel (db : Database) (fd : FieldDescr) (name : String)
    (parentMeta : ModelMeta) (models : List ModelInst)
    (eager : List ModelInst) : List ModelInst :=
  match fd with
  | .attr => models
  | .hasMany _ fk =>
    models.map (fun m =>
      setRelated m name
        (.many (eager.filter
          (fun e => getAttr e fk == getAttr m parentMeta.keyName))))
  | .belongsTo rEnt fk =>
    models.map (fun m =>
      setRelated m name
        (.one (eager.find?
          (fun e => getAttr e (getModel db rEnt).keyName == getAttr m fk))))

/-- Query.eagerLoadRelation, parameterized by the executor that runs the
sub-query (Relation.getEager): build the relation-scoped sub-query, let
the relation add its constraints, apply the stored constraint closure,
execute the sub-query and match the results back. -/
def loadRelWith (eagerExec : QueryState → List ModelInst) (db : Database)
    (parentMeta : ModelMeta) (models : List ModelInst) (name : String)
    (c : EagerConstraint) : List ModelInst :=
  match alookup parentMeta.fields name with
  | none => models
  | some fd =>
    match relatedEntity fd with
    | none => models
    | some rEnt =>
      let sub := applyConstraint c
        (addEagerCons db fd parentMeta models (freshQuery (getModel db rEnt)))
      matchRel db fd name parentMeta models (eagerExec sub)

/-- Query.get: select, then eager-load resolution when the result is
non-empty. The fuel argument bounds the nesting depth of eager loads (the
source recurses without bound through constraint closures); every claim
is stated at a uniform or sufficient fuel. -/
def getFuel : Nat → Database → Stores → QueryState → List ModelInst
  | 0, _, _, _ => []
  | f + 1, db, sts, q =>
    let models := select sts q
    if models.isEmpty then models
    else
      q.eagerLoad.foldl
        (fun ms nc =>
          loadRelWith (getFuel f db sts) db q.model ms nc.1 nc.2) models

/-- Query.eagerLoadRelation at a given eager-execution fuel. -/
def loadRel (fuel : Nat) (db : Database) (sts : Stores)
    (parentMeta : ModelMeta) (models : List ModelInst) (name : String)
    (c : EagerConstraint) : List ModelInst :=
  loadRelWith (getFuel fuel db sts) db parentMeta models name c

/-- Query.first with explicit state: limit(1) mutates the query, then the
head of get (?? null for an empty result). -/
def firstS (fuel : Nat) (db : Database) (sts : Stores) (q : QueryState) :
    Option ModelInst × QueryState :=
  let q1 := limitQ 1 q
  ((getFuel fuel db sts q1).head?, q1)

/-- Query.find with a single id: whereId(id).first(), both mutating the
query instance. -/
def findOneS (fuel : Nat) (db : Database) (sts : Stores) (id : Value)
    (q : QueryState) : Option ModelInst × QueryState :=
  firstS fuel db sts (whereIdOne id q)

/-- Query.findIn: whereId(ids).get(). -/
def findInS (fuel : Nat) (db : Database) (sts : Stores) (ids : List Value)
    (q : QueryState) : List ModelInst × QueryState :=
  let q1 := whereIdIn ids q
  (getFuel fuel db sts q1, q1)

/-- A value of a normalized schema element: a scalar, one nested element,
or an array of nested elements. -/
inductive SVal where
  | v : Value → SVal
  | el : List (String × SVal) → SVal
  | many : List (List (String × SVal)) → SVal
deriving Repr

/-- A normalized schema element: entity-shaped field map. -/
abbrev Elem := List (String × SVal)

/-- JavaScript falsiness of a schema slot: null, undefined, false, 0 and
the empty string are falsy; objects and arrays are truthy. -/
def svalFalsy : SVal → Bool
  | .v Value.null => true
  | .v Value.undef => true
  | .v (Value.bool false) => true
  | .v (Value.num 0) => true
  | .v (Value.str "") => true
  | _ => false

/-- model.getIndexId applied to a schema element (single primary key).
Modelled from the spec: the index id is derived from the element's
primary-key value. -/
def elemIndexId (meta : ModelMeta) (schema : Elem) : String :=
  match alookup schema meta.keyName with
  | some (.v v) => toIdString v
  | _ => ""

mutual
/-- Query.reviveOne: resolve the element's index id, look the record up
in the live store, hydrate it, then revive the relations; null when the
store no longer holds the id. -/
def reviveOne (db : Database) (sts : Stores) (meta : ModelMeta)
    (schema : Elem) : Option ModelInst :=
  match connFind sts meta (elemIndexId meta schema) with
  | none => none
  | some record =>
    some (reviveRelationsGo db sts meta (hydrate meta record) schema)

/-- Query.reviveMany: reviveOne across the array, dropping nulls. -/
def reviveMany (db : Database) (sts : Stores) (meta : ModelMeta) :
    List Elem → List ModelInst
  | [] => []
  | e :: es =>
    match reviveOne db sts meta e with
    | some m => m :: reviveMany db sts meta es
    | none => reviveMany db sts meta es

/-- Query.reviveRelations, as a walk over the schema element's fields.
Non-relation fields are skipped with continue; a falsy relation slot hits
the source's early return (Query.ts line 455), abandoning the remaining
fields; otherwise the relation attribute is set from reviveMany or
reviveOne of the nested schema, by its array-ness. -/
def reviveRelationsGo (db : Database) (sts : Stores) (meta : ModelMeta)
    (m : ModelInst) : List (String × SVal) → ModelInst
  | [] => m
  | (key, sval) :: rest =>
    match alookup meta.fields key with
    | none => reviveRelationsGo db sts meta m rest
    | some fd =>
      match relatedEntity fd with
      | none => reviveRelationsGo db sts meta m rest
      | some rEnt =>
        if svalFalsy sval then m
        else
          let newVal : RelVal :=
            match sval with
            | .many es => .many (reviveMany db sts (getModel db rEnt) es)
            | .el e => .one (reviveOne db sts (getModel db rEnt) e)
            | .v _ => .one none
          reviveRelationsGo db sts meta (setRelated m key newVal) rest
end

/-- JavaScript object spread of two records: the keys of the first in
their order, each overridden by the second when present there, followed
by the second's fresh keys. -/
def mergeRec (ex record : Rec) : Rec :=
  ex.map (fun kv => (kv.1, (alookup record kv.1).getD kv.2)) ++
    record.filter (fun kv => !hasKey ex kv.1)

/-- Query.saveElements: build newData by merging each incoming element
over the record currently stored under its id (spread: incoming fields
win), hydrating the result; then write the whole batch in one Connection
save. The batch is returned alongside the updated stores. -/
def saveElementsS (sts : Stores) (meta : ModelMeta)
    (elements : List (String × Rec)) : List (String × Rec) × Stores :=
  let currentData := connGet sts meta
  let newData := elements.map (fun idRec =>
    (idRec.1,
      match alookup currentData idRec.1 with
      | some existing =>
        meta.newInstanceAttrs (mergeRec existing idRec.2)
      | none => meta.newInstanceAttrs idRec.2))
  (newData, connSave sts meta newData)

/-- The error message of the assert guarding Query.destroy. -/
def destroyCompositeMsg : String :=
  "You can't use the `destroy` method on a model with a composite key. Please use `delete` method instead."

/-- Query.destroyOne: find(id), null when absent, else one Connection
destroy of the model's index id. -/
def destroyOneS (fuel : Nat) (db : Database) (sts : Stores) (id : Value)
    (q : QueryState) : Option ModelInst × QueryState × Stores :=
  match findOneS fuel db sts id q with
  | (none, q1) => (none, q1, sts)
  | (some m, q1) =>
    (some m, q1, connDestroy sts q.model [modelIndexId q.model m])

/-- Query.destroyMany: find(ids), empty when nothing matched, else one
batched Connection destroy of the matched index ids. -/
def destroyManyS (fuel : Nat) (db : Database) (sts : Stores)
    (ids : List Value) (q : QueryState) :
    List ModelInst × QueryState × Stores :=
  match findInS fuel db sts ids q with
  | (models, q1) =>
    if models.isEmpty then ([], q1, sts)
    else
      (models, q1,
        connDestroy sts q.model (models.map (fun m => modelIndexId q.model m)))

/-- Query.destroy: the composite-key assert fires before any store
access; then the single-id or the multi-id path runs. The error case
returns the stores untouched, mirroring the thrown assertion. -/
def destroyS (fuel : Nat) (db : Database) (sts : Stores)
    (ids : Value ⊕ List Value) (q : QueryState) :
    Except String (Option ModelInst ⊕ List ModelInst) × QueryState × Stores :=
  if q.model.hasCompositeKey then (.error destroyCompositeMsg, q, sts)
  else
    match ids with
    | .inl id =>
      match destroyOneS fuel db sts id q with
      | (m, q1, sts1) => (.ok (.inl m), q1, sts1)
    | .inr l =>
      match destroyManyS fuel db sts l q with
      | (ms, q1, sts1) => (.ok (.inr ms), q1, sts1)

/-! ### Association-list lemmas -/

theorem alookup_aupsert {α : Type} (l : List (String × α)) (k n : String)
    (v : α) :
    alookup (aupsert l k v) n = if n = k then some v else alookup l n := by
  induction l with
  | nil =>
    simp only [aupsert, alookup]
    by_cases h : n = k
    · subst h; simp
    · rw [if_neg (fun hh => h hh.symm), if_neg h]
  | cons hd tl ih =>
    obtain ⟨k0, w0⟩ := hd
    simp only [aupsert]
    by_cases hk : k0 = k
    · rw [if_pos hk]
      simp only [alookup]
      by_cases hn : k0 = n
      · rw [if_pos hn, if_pos hn, if_pos (by rw [← hn, hk])]
      · rw [if_neg hn, if_neg hn,
          if_neg (fun hh : n = k => hn (by rw [hk, ← hh]))]
    · rw [if_neg hk]
      simp only [alookup]
      by_cases hn : k0 = n
      · rw [if_pos hn, if_pos hn,
          if_neg (fun hh : n = k => hk (by rw [hn, hh]))]
      · rw [if_neg hn, if_neg hn, ih]

theorem getWhereComparator_eq (ws : List Where) (m : ModelInst) :
    getWhereComparator ws m =
      ((!(andGroup ws).isEmpty &&
          (andGroup ws).all (fun w => whereComparator m w)) ||
       (!(orGroup ws).isEmpty &&
          (orGroup ws).any (fun w => whereComparator m w))) := by
  unfold getWhereComparator
  cases hA : (andGroup ws).isEmpty <;> cases hO : (orGroup ws).isEmpty <;>
    cases hall : (andGroup ws).all (fun w => whereComparator m w) <;>
    cases hany : (orGroup ws).any (fun w => whereComparator m w) <;>
    simp only [hA, hO, hall, hany, Bool.false_eq_true, if_true, if_false,
      ite_true, ite_false] <;> decide

/-- C1. A model passes filterWhere iff there is no clause at all, or the
and-group is non-empty and every clause in it matches, or the or-group is
non-empty and some clause in it matches; the two groups combine
disjunctively and an empty group never contributes false. -/
theorem filterWhere_group_semantics (ws : List Where)
    (ms : List ModelInst) (m : ModelInst) (hm : m ∈ ms) :
    m ∈ filterWhere ws ms ↔
      (ws = [] ∨
        (andGroup ws ≠ [] ∧
          ∀ w ∈ andGroup ws, whereComparator m w = true) ∨
        (orGroup ws ≠ [] ∧
          ∃ w ∈ orGroup ws, whereComparator m w = true)) := by
  unfold filterWhere
  cases hws : ws.isEmpty
  · have hne : ws ≠ [] := by
      intro h; subst h; simp at hws
    rw [if_neg (by simp [hws])]
    rw [List.mem_filter]
    simp only [hm, true_and, hne, false_or]
    rw [getWhereComparator_eq]
    simp [List.all_eq_true, List.any_eq_true, List.isEmpty_iff]
  · have : ws = [] := by
      cases ws with
      | nil => rfl
      | cons a l => simp [List.isEmpty] at hws
    subst this
    simp [hm]

/-- The spec's example model with active false and name Jane. -/
def mJane : ModelInst :=
  .mk [("active", Value.bool false), ("name", Value.str "Jane")] []

/-- The spec's example clause list: where(active, true) then
orWhere(name, Jane). -/
def wsJane : List Where :=
  [⟨.fname "active", .val (Value.bool true), .and⟩,
   ⟨.fname "name", .val (Value.str "Jane"), .or⟩]

/-- Witness for C1, at the spec's own example: the model with active
false and name Jane, which passes through the or-group. -/
theorem filterWhere_group_semantics_witness :
    mJane ∈ [mJane] ∧
    (mJane ∈ filterWhere wsJane [mJane] ↔
      (wsJane = [] ∨
        (andGroup wsJane ≠ [] ∧
          ∀ w ∈ andGroup wsJane, whereComparator mJane w = true) ∨
        (orGroup wsJane ≠ [] ∧
          ∃ w ∈ orGroup wsJane, whereComparator mJane w = true))) :=
  ⟨List.mem_singleton.mpr rfl,
    filterWhere_group_semantics wsJane [mJane] mJane
      (List.mem_singleton.mpr rfl)⟩

/-- C2. whereComparator's priority: a primary closure in the field slot
decides alone; else an array value tests membership of the field value;
else a secondary closure of the field value decides; else strict
equality of the field value and the clause value. -/
theorem whereComparator_priority :
    (∀ (m : ModelInst) (p : ModelInst → Bool) (v : WhereValue)
        (b : WhereBool),
      whereComparator m ⟨.pred p, v, b⟩ = p m) ∧
    (∀ (m : ModelInst) (f : String) (vs : List Value) (b : WhereBool),
      whereComparator m ⟨.fname f, .arr vs, b⟩ = vs.contains (getAttr m f)) ∧
    (∀ (m : ModelInst) (f : String) (p : Value → Bool) (b : WhereBool),
      whereComparator m ⟨.fname f, .pred p, b⟩ = p (getAttr m f)) ∧
    (∀ (m : ModelInst) (f : String) (v : Value) (b : WhereBool),
      whereComparator m ⟨.fname f, .val v, b⟩ = (getAttr m f == v)) :=
  ⟨fun _ _ _ _ => rfl, fun _ _ _ _ => rfl, fun _ _ _ _ => rfl,
    fun _ _ _ _ => rfl⟩

/-! ### C3: pagination after filtering and ordering -/

theorem filterLimit_drop_take (take : Option Nat) (skip : Nat)
    (ms : List ModelInst) :
    filterLimit take skip ms =
      match take with
      | some t => (ms.drop skip).take t
      | none => ms.drop skip := by
  cases take with
  | none => rfl
  | some t => simp only [filterLimit]; exact (List.take_drop skip t ms).symm

/-- The ten-record store of the spec's pagination example, ids 1..10. -/
def pagingStores : Stores :=
  [("users",
    [("1", [("id", Value.num 1)]), ("2", [("id", Value.num 2)]),
     ("3", [("id", Value.num 3)]), ("4", [("id", Value.num 4)]),
     ("5", [("id", Value.num 5)]), ("6", [("id", Value.num 6)]),
     ("7", [("id", Value.num 7)]), ("8", [("id", Value.num 8)]),
     ("9", [("id", Value.num 9)]), ("10", [("id", Value.num 10)])])]

/-- Metadata of the example user entity: primary key id, no relation. -/
def pagingMeta : ModelMeta :=
  { entity := "users", keyName := "id", hasCompositeKey := false,
    newInstanceAttrs := fun r => r, fields := [("id", FieldDescr.attr)] }

/-- The example chain orderBy(id, desc).limit(3).offset(2). -/
def pagingQuery : QueryState :=
  offsetQ 2 (limitQ 3 (orderByQ (.fname "id") .desc
    (freshQuery pagingMeta)))

/-- Counterexample to C3's concrete expectation: the example chain over
ids 1..10 selects the models with ids 8, 7, 6 — slice(2, 5) of the
descending order — not 7, 6, 5. -/
theorem paging_example_not_765 :
    (select pagingStores pagingQuery).map (fun m => getAttr m "id") ≠
      [Value.num 7, Value.num 6, Value.num 5] := by
  decide

/-- C3 amended. Pagination is applied strictly after filtering and
ordering, as slice(offset, offset + limit) when a limit is set and
slice(offset) otherwise; on the store with ids 1..10, the chain
orderBy(id, desc).limit(3).offset(2) returns the models with ids
8, 7, 6 in that order. -/
theorem select_pagination_after_order :
    (∀ (sts : Stores) (q : QueryState),
      select sts q =
        match q.take with
        | some t =>
          ((filterOrder q.orders
            (filterWhere q.wheres (allModels sts q.model))).drop q.skip).take t
        | none =>
          (filterOrder q.orders
            (filterWhere q.wheres (allModels sts q.model))).drop q.skip) ∧
    (select pagingStores pagingQuery).map (fun m => getAttr m "id") =
      [Value.num 8, Value.num 7, Value.num 6] := by
  refine ⟨fun sts q => ?_, by decide⟩
  unfold select
  rw [filterLimit_drop_take]

/-! ### C4: find with a list of ids -/

theorem getFuel_no_eager (f : Nat) (db : Database) (sts : Stores)
    (q : QueryState) (h : q.eagerLoad = []) :
    getFuel (f + 1) db sts q = select sts q := by
  rw [getFuel]
  cases hm : (select sts q).isEmpty <;> simp [h, hm]

theorem select_single_and_clause (sts : Stores) (meta : ModelMeta)
    (ids : List Value) :
    select sts (whereIdIn ids (freshQuery meta)) =
      (allModels sts meta).filter
        (fun m => ids.contains (getAttr m meta.keyName)) := by
  unfold whereIdIn whereQ freshQuery select filterLimit filterOrder
    filterWhere
  simp only [List.nil_append, List.isEmpty_cons, List.isEmpty_nil,
    if_true, if_false, Bool.false_eq_true, List.drop_zero, ite_true,
    ite_false]
  apply List.filter_congr
  intro m _
  rw [getWhereComparator_eq]
  simp [andGroup, orGroup, whereComparator]

/-- C4. findIn(ids) (the array form of find) returns exactly the models
whose primary-key attribute is a member of the id list, in store order;
ids with no matching record contribute nothing, and the whole operation
is a total function (no error path exists). The second conjunct runs the
spec's example: find([1, 2, 999]) against a store holding ids 1 and 2. -/
theorem findIn_filters_by_key :
    (∀ (f : Nat) (db : Database) (sts : Stores) (meta : ModelMeta)
        (ids : List Value),
      (findInS (f + 1) db sts ids (freshQuery meta)).1 =
        (allModels sts meta).filter
          (fun m => ids.contains (getAttr m meta.keyName))) ∧
    ((findInS 1 []
        [("users", [("1", [("id", Value.num 1)]),
                    ("2", [("id", Value.num 2)])])]
        [Value.num 1, Value.num 2, Value.num 999]
        (freshQuery pagingMeta)).1.map (fun m => getAttr m "id") =
      [Value.num 1, Value.num 2]) := by
  constructor
  · intro f db sts meta ids
    show getFuel (f + 1) db sts (whereIdIn ids (freshQuery meta)) = _
    rw [getFuel_no_eager _ _ _ _ rfl, select_single_and_clause]
  · decide

/-! ### C5: saveElements merge semantics -/

theorem alookup_append {α : Type} (l1 l2 : List (String × α)) (k : String) :
    alookup (l1 ++ l2) k =
      match alookup l1 k with
      | some v => some v
      | none => alookup l2 k := by
  induction l1 with
  | nil => simp [alookup]
  | cons hd tl ih =>
    obtain ⟨k0, v0⟩ := hd
    by_cases h : k0 = k
    · simp [alookup, h]
    · simp [alookup, h, ih]

theorem alookup_map_modify {α β : Type} (g : String → α → β)
    (l : List (String × α)) (k : String) :
    alookup (l.map (fun kv => (kv.1, g kv.1 kv.2))) k =
      (alookup l k).map (g k) := by
  induction l with
  | nil => simp [alookup]
  | cons hd tl ih =>
    obtain ⟨k0, v0⟩ := hd
    by_cases h : k0 = k
    · subst h; simp [alookup]
    · simp [alookup, h, ih]

theorem alookup_filter_key {α : Type} (pk : String → Bool)
    (l : List (String × α)) (k : String) :
    alookup (l.filter (fun kv => pk kv.1)) k =
      if pk k then alookup l k else none := by
  induction l with
  | nil => simp [alookup]
  | cons hd tl ih =>
    obtain ⟨k0, v0⟩ := hd
    by_cases hp : pk k0
    · rw [List.filter_cons_of_pos (by simpa using hp)]
      by_cases hk : k0 = k
      · subst hk; simp [alookup, hp]
      · simp [alookup, hk, ih]
    · rw [List.filter_cons_of_neg (by simpa using hp)]
      by_cases hk : k0 = k
      · subst hk
        rw [ih, if_neg (by simpa using hp)]
        by_cases h2 : pk k0 <;> simp [h2, alookup] at hp ⊢
      · simp [alookup, hk, ih]

theorem mergeRec_lookup (ex record : Rec) (k : String) :
    alookup (mergeRec ex record) k =
      match alookup record k with
      | some w => some w
      | none => alookup ex k := by
  unfold mergeRec
  rw [alookup_append,
    alookup_map_modify (fun key v => (alookup record key).getD v)]
  cases hex : alookup ex k with
  | some v =>
    cases hrec : alookup record k <;> simp [hrec]
  | none =>
    rw [show Option.map (fun v => (alookup record k).getD v) none = none
      from rfl]
    rw [alookup_filter_key (fun key => !hasKey ex key)]
    simp only [hasKey, hex, Option.isSome_none, Bool.not_false, if_true]
    cases hrec : alookup record k <;> simp

theorem alookup_foldl_aupsert_notmem {α : Type}
    (batch : List (String × α)) (s0 : List (String × α)) (k : String)
    (h : k ∉ batch.map Prod.fst) :
    alookup (batch.foldl (fun s e => aupsert s e.1 e.2) s0) k =
      alookup s0 k := by
  induction batch generalizing s0 with
  | nil => rfl
  | cons hd tl ih =>
    obtain ⟨k0, v0⟩ := hd
    simp only [List.map_cons, List.mem_cons] at h
    push_neg at h
    rw [List.foldl_cons, ih _ h.2, alookup_aupsert, if_neg h.1]

theorem alookup_foldl_aupsert_mem {α : Type}
    (batch : List (String × α)) (s0 : List (String × α)) (id : String)
    (r : α) (hnd : (batch.map Prod.fst).Nodup) (hm : (id, r) ∈ batch) :
    alookup (batch.foldl (fun s e => aupsert s e.1 e.2) s0) id = some r := by
  induction batch generalizing s0 with
  | nil => cases hm
  | cons hd tl ih =>
    obtain ⟨k0, v0⟩ := hd
    simp only [List.map_cons, List.nodup_cons] at hnd
    rcases List.mem_cons.mp hm with heq | htl
    · obtain ⟨h1, h2⟩ := Prod.mk.injEq .. ▸ heq
      subst h1; subst h2
      rw [List.foldl_cons,
        alookup_foldl_aupsert_notmem _ _ _ hnd.1,
        alookup_aupsert, if_pos rfl]
    · rw [List.foldl_cons]
      exact ih _ hnd.2 htl

theorem connGet_setStore (sts : Stores) (meta : ModelMeta) (s : Store) :
    connGet (setStore sts meta s) meta = s := by
  unfold connGet setStore
  rw [alookup_aupsert, if_pos rfl]
  rfl

theorem connFind_connSave (sts : Stores) (meta : ModelMeta)
    (batch : List (String × Rec)) (id : String) (r : Rec)
    (hnd : (batch.map Prod.fst).Nodup) (hm : (id, r) ∈ batch) :
    connFind (connSave sts meta batch) meta id = some r := by
  unfold connFind connSave
  rw [connGet_setStore]
  exact alookup_foldl_aupsert_mem _ _ _ _ hnd hm

/-- C5. saveElements persists, for each incoming element whose id already
exists in the store, the hydration of the spread of existing over
incoming (incoming fields win), and elements with fresh ids hydrated
as-is; the whole batch is written through one Connection save, whose
batch the function returns. The last conjunct is the spread law itself:
an incoming field wins and an untouched existing field survives. -/
theorem saveElements_merge_semantics (sts : Stores) (meta : ModelMeta)
    (elements : List (String × Rec))
    (h : (elements.map Prod.fst).Nodup) :
    (∀ id rec, (id, rec) ∈ elements →
      connFind (saveElementsS sts meta elements).2 meta id =
        some (match connFind sts meta id with
          | some existing => meta.newInstanceAttrs (mergeRec existing rec)
          | none => meta.newInstanceAttrs rec)) ∧
    ((saveElementsS sts meta elements).2 =
      connSave sts meta (saveElementsS sts meta elements).1) ∧
    (∀ (ex record : Rec) (k : String),
      alookup (mergeRec ex record) k =
        match alookup record k with
        | some w => some w
        | none => alookup ex k) := by
  refine ⟨?_, rfl, fun ex record k => mergeRec_lookup ex record k⟩
  intro id rec hm
  have e2 : (saveElementsS sts meta elements).2 =
      connSave sts meta (saveElementsS sts meta elements).1 := rfl
  rw [e2]
  apply connFind_connSave
  · show ((elements.map _).map Prod.fst).Nodup
    rw [List.map_map]
    exact h
  · exact List.mem_map.mpr ⟨(id, rec), hm, rfl⟩

/-- The store of the spec's saveElements example: one existing record
with id 1, a 1, b 2. -/
def mergeStores : Stores :=
  [("users",
    [("1", [("id", Value.num 1), ("a", Value.num 1), ("b", Value.num 2)])])]

/-- The incoming element map of the spec's saveElements example. -/
def mergeElems : List (String × Rec) :=
  [("1", [("id", Value.num 1), ("b", Value.num 3)])]

/-- Witness for C5 at the spec's example: existing id 1, a 1, b 2 merged
with incoming id 1, b 3 persists id 1, a 1, b 3. -/
theorem saveElements_merge_semantics_witness :
    ((mergeElems.map Prod.fst).Nodup) ∧
    connFind (saveElementsS mergeStores pagingMeta mergeElems).2 pagingMeta
        "1" =
      some [("id", Value.num 1), ("a", Value.num 1), ("b", Value.num 3)] :=
  ⟨by decide,
    by
      have h :=
        (saveElements_merge_semantics mergeStores pagingMeta mergeElems
          (by decide)).1 "1" [("id", Value.num 1), ("b", Value.num 3)]
          (by decide)
      exact h.trans (by decide)⟩

/-! ### C6: destroy on a composite-key model -/

/-- C6. When the model's primary key is composite, destroy (single-id or
multi-id form) returns the assert error directing the caller to delete,
the query state is untouched and the stores are returned exactly as they
came in: the assert fires before any Connection access. -/
theorem destroy_composite_rejects (fuel : Nat) (db : Database)
    (sts : Stores) (ids : Value ⊕ List Value) (q : QueryState)
    (h : q.model.hasCompositeKey = true) :
    destroyS fuel db sts ids q = (.error destroyCompositeMsg, q, sts) := by
  unfold destroyS
  rw [if_pos h]

/-- A model whose primary key is composite. -/
def compositeMeta : ModelMeta :=
  { entity := "pivots", keyName := "id", hasCompositeKey := true,
    newInstanceAttrs := fun r => r,
    fields := [("id", FieldDescr.attr)] }

/-- Witness for C6: a destroy call on a composite-key model errors and
leaves the (non-empty) store untouched. -/
theorem destroy_composite_rejects_witness :
    (freshQuery compositeMeta).model.hasCompositeKey = true ∧
    destroyS 1 [] [("pivots", [("1", [("id", Value.num 1)])])]
        (Sum.inl (Value.num 1)) (freshQuery compositeMeta) =
      (.error destroyCompositeMsg, freshQuery compositeMeta,
        [("pivots", [("1", [("id", Value.num 1)])])]) :=
  ⟨rfl,
    destroy_composite_rejects 1 [] [("pivots", [("1", [("id", Value.num 1)])])]
      (Sum.inl (Value.num 1)) (freshQuery compositeMeta) rfl⟩

/-! ### C9: terminal calls and the accumulated state -/

/-- Counterexample to C9: find(id) does not leave the accumulated state
unchanged — it appends a primary-key where clause (and sets limit 1)
through the chain methods it invokes on the same instance. -/
theorem find_mutates_accumulated_state :
    (findOneS 1 [] [] (Value.num 1) (freshQuery pagingMeta)).2 ≠
      freshQuery pagingMeta := by
  intro h
  have h1 : (findOneS 1 [] [] (Value.num 1)
      (freshQuery pagingMeta)).2.wheres.length = 1 := rfl
  rw [h] at h1
  exact absurd h1 (by decide)

/-- C9 amended. The accumulated state is mutated only through the
instance's own chain methods, but the terminal calls do invoke those
chain methods on the same instance: first() sets the limit to 1; the
single-id find (and destroy's single-id path through it) additionally
appends the primary-key equality clause; the array find appends the
primary-key membership clause. These are the only state changes a
terminal call performs. -/
theorem terminal_call_state_effects (fuel : Nat) (db : Database)
    (sts : Stores) (id : Value) (ids : List Value) (q : QueryState) :
    ((firstS fuel db sts q).2 = { q with take := some 1 }) ∧
    ((findOneS fuel db sts id q).2 =
      { q with
        wheres := q.wheres ++ [⟨.fname q.model.keyName, .val id, .and⟩],
        take := some 1 }) ∧
    ((destroyOneS fuel db sts id q).2.1 =
      { q with
        wheres := q.wheres ++ [⟨.fname q.model.keyName, .val id, .and⟩],
        take := some 1 }) ∧
    ((findInS fuel db sts ids q).2 =
      { q with
        wheres := q.wheres ++ [⟨.fname q.model.keyName, .arr ids, .and⟩] }) := by
  refine ⟨rfl, rfl, ?_, rfl⟩
  have hd : (destroyOneS fuel db sts id q).2.1 =
      (findOneS fuel db sts id q).2 := by
    unfold destroyOneS
    cases hm : findOneS fuel db sts id q with
    | mk fst snd => cases fst <;> rfl
  rw [hd]
  rfl

/-! ### C7: reviveOne and null-valued relation fields -/

/-- User metadata with two relation fields r1 and r2, in that schema
order. -/
def reviveUsersMeta : ModelMeta :=
  { entity := "users", keyName := "id", hasCompositeKey := false,
    newInstanceAttrs := fun r => r,
    fields := [("id", FieldDescr.attr),
               ("r1", FieldDescr.hasMany "posts" "uid"),
               ("r2", FieldDescr.hasMany "posts" "uid")] }

/-- Post metadata. -/
def revivePostsMeta : ModelMeta :=
  { entity := "posts", keyName := "id", hasCompositeKey := false,
    newInstanceAttrs := fun r => r, fields := [("id", FieldDescr.attr)] }

/-- The two-entity database of the revival example. -/
def reviveDb : Database :=
  [("users", reviveUsersMeta), ("posts", revivePostsMeta)]

/-- Stores holding the user record (id 1) and the post record (id 2)
that the schema element references through r2. -/
def reviveStores : Stores :=
  [("users", [("1", [("id", Value.str "1")])]),
   ("posts", [("2", [("id", Value.str "2")])])]

/-- The failing schema element: relation field r1 holds null, relation
field r2 holds a nested element whose record is live in the store. -/
def reviveSchemaNull : Elem :=
  [("id", SVal.v (Value.str "1")), ("r1", SVal.v Value.null),
   ("r2", SVal.el [("id", SVal.v (Value.str "2"))])]

/-- The same schema element with a truthy r1 (an empty array). -/
def reviveSchemaTruthy : Elem :=
  [("id", SVal.v (Value.str "1")), ("r1", SVal.many []),
   ("r2", SVal.el [("id", SVal.v (Value.str "2"))])]

/-- C7, evaluated on the failing input. The claim (every relation field
present in the schema element is revived regardless of null values)
fails: with r1 null, reviveOne returns the hydrated record with NO
relation attribute at all — the source's return inside the
reviveRelations loop abandons r2, although r2 is non-null and its record
is live. The second conjunct shows the contrast: with a truthy r1 the
same element gets both r1 and r2 revived, so the loss is caused purely
by the null-valued earlier field. -/
theorem reviveOne_null_relation_aborts_rest :
    (reviveOne reviveDb reviveStores reviveUsersMeta reviveSchemaNull =
      some (ModelInst.mk [("id", Value.str "1")] [])) ∧
    (reviveOne reviveDb reviveStores reviveUsersMeta reviveSchemaTruthy =
      some (ModelInst.mk [("id", Value.str "1")]
        [("r1", RelVal.many []),
         ("r2", RelVal.one
           (some (ModelInst.mk [("id", Value.str "2")] [])))])) := by
  constructor <;>
    simp [reviveOne, reviveRelationsGo, reviveMany, connFind, connGet,
      reviveDb, reviveStores, reviveUsersMeta, revivePostsMeta,
      reviveSchemaNull, reviveSchemaTruthy, elemIndexId, alookup,
      toIdString, hydrate, getModel, relatedEntity, svalFalsy, setRelated,
      aupsert, ModelInst.attrs, ModelInst.related]

/-! ### C8: withAllRecursive registration and depth-0 termination -/

theorem mem_aupsert {α : Type} (l : List (String × α)) (k0 : String)
    (v0 : α) (k : String) (v : α) (h : (k, v) ∈ aupsert l k0 v0) :
    (k, v) ∈ l ∨ v = v0 := by
  induction l with
  | nil =>
    simp only [aupsert, List.mem_singleton] at h
    right
    exact (Prod.mk.injEq .. ▸ h).2
  | cons hd tl ih =>
    obtain ⟨k1, w1⟩ := hd
    by_cases hk : k1 = k0
    · rw [aupsert, if_pos hk] at h
      rcases List.mem_cons.mp h with heq | htl
      · right; exact (Prod.mk.injEq .. ▸ heq).2
      · left; exact List.mem_cons_of_mem _ htl
    · rw [aupsert, if_neg hk] at h
      rcases List.mem_cons.mp h with heq | htl
      · left; exact heq ▸ List.mem_cons_self _ _
      · rcases ih htl with hl | hv
        · left; exact List.mem_cons_of_mem _ hl
        · right; exact hv

theorem mem_eagerLoad_withAllQ (cb : EagerConstraint)
    (fields : List (String × FieldDescr)) (q0 : QueryState)
    (name : String) (c : EagerConstraint)
    (h : (name, c) ∈
      (fields.foldl
        (fun acc nf =>
          match relatedEntity nf.2 with
          | some _ => withQ nf.1 cb acc
          | none => acc) q0).eagerLoad) :
    (name, c) ∈ q0.eagerLoad ∨ c = cb := by
  induction fields generalizing q0 with
  | nil => exact Or.inl h
  | cons hd tl ih =>
    rw [List.foldl_cons] at h
    cases hre : relatedEntity hd.2 with
    | none => rw [hre] at h; exact ih _ h
    | some r =>
      rw [hre] at h
      rcases ih _ h with hl | hv
      · exact mem_aupsert _ _ _ _ _ hl
      · exact Or.inr hv

/-- C8. withAllRecursive d registers, via withAll, the constraint closure
for depth d on every relation field (every constraint it adds is that
closure); running that closure on a sub-query calls
withAllRecursive (d - 1) when d is positive, and at depth 0 it registers
nothing — the sub-query is returned untouched, stopping the recursion. -/
theorem withAllRecursive_registration (d : Nat) (q sub : QueryState) :
    (withAllRecursive d q = withAllQ (.recurseIfPos d) q) ∧
    (∀ name c, (name, c) ∈ (withAllRecursive d q).eagerLoad →
      (name, c) ∈ q.eagerLoad ∨ c = .recurseIfPos d) ∧
    (0 < d →
      applyConstraint (.recurseIfPos d) sub = withAllRecursive (d - 1) sub) ∧
    (applyConstraint (.recurseIfPos 0) sub = sub) := by
  refine ⟨rfl, ?_, ?_, rfl⟩
  · intro name c h
    exact mem_eagerLoad_withAllQ (.recurseIfPos d) q.model.fields q name c h
  · intro hd
    show (if 0 < d then withAllRecursive (d - 1) sub else sub) =
      withAllRecursive (d - 1) sub
    rw [if_pos hd]

/-- Witness for C8 at depth 1 on a model with two relation fields:
the constraint registered for r1 is the depth-1 closure, and running the
depth-1 closure performs withAllRecursive 0. -/
theorem withAllRecursive_registration_witness :
    (("r1", EagerConstraint.recurseIfPos 1) ∈
      (withAllRecursive 1 (freshQuery reviveUsersMeta)).eagerLoad) ∧
    ((("r1", EagerConstraint.recurseIfPos 1) ∈
        (freshQuery reviveUsersMeta).eagerLoad) ∨
      EagerConstraint.recurseIfPos 1 = EagerConstraint.recurseIfPos 1) ∧
    (0 < 1) ∧
    (applyConstraint (.recurseIfPos 1) (freshQuery revivePostsMeta) =
      withAllRecursive 0 (freshQuery revivePostsMeta)) :=
  ⟨by decide,
    (withAllRecursive_registration 1 (freshQuery reviveUsersMeta)
      (freshQuery revivePostsMeta)).2.1 "r1" (EagerConstraint.recurseIfPos 1)
      (by decide),
    by decide,
    (withAllRecursive_registration 1 (freshQuery reviveUsersMeta)
      (freshQuery revivePostsMeta)).2.2.1 (by decide)⟩

/-! ### C10: order-independence of eager loading across distinct names -/

/-- Two models carry the same population: equal attribute records and
extensionally equal relation-attribute maps (JS objects differing only in
property insertion order). -/
def ModelEquiv (m1 m2 : ModelInst) : Prop :=
  m1.attrs = m2.attrs ∧
    ∀ n, alookup m1.related n = alookup m2.related n

theorem forall₂_equiv_refl (l : List ModelInst) :
    List.Forall₂ ModelEquiv l l := by
  induction l with
  | nil => exact List.Forall₂.nil
  | cons hd tl ih => exact List.Forall₂.cons ⟨rfl, fun _ => rfl⟩ ih

theorem forall₂_map_pointwise {R : ModelInst → ModelInst → Prop}
    (f g : ModelInst → ModelInst) (l : List ModelInst)
    (h : ∀ x ∈ l, R (f x) (g x)) :
    List.Forall₂ R (l.map f) (l.map g) := by
  induction l with
  | nil => exact List.Forall₂.nil
  | cons hd tl ih =>
    exact List.Forall₂.cons (h hd (List.mem_cons_self _ _))
      (ih (fun x hx => h x (List.mem_cons_of_mem _ hx)))

theorem setRelated_comm_equiv (m : ModelInst) (A B : String)
    (hAB : A ≠ B) (x y : RelVal) :
    ModelEquiv (setRelated (setRelated m A x) B y)
      (setRelated (setRelated m B y) A x) := by
  refine ⟨rfl, fun n => ?_⟩
  show alookup (aupsert (aupsert m.related A x) B y) n =
    alookup (aupsert (aupsert m.related B y) A x) n
  rw [alookup_aupsert, alookup_aupsert, alookup_aupsert, alookup_aupsert]
  by_cases hnB : n = B
  · rw [if_pos hnB, if_neg (fun h => hAB (h.symm.trans hnB)), if_pos hnB]
  · rw [if_neg hnB]
    by_cases hnA : n = A
    · rw [if_pos hnA, if_pos hnA]
    · rw [if_neg hnA, if_neg hnA, if_neg hnB]

theorem aupsert_absent {α : Type} (l : List (String × α)) (k : String)
    (v : α) (h : hasKey l k = false) : aupsert l k v = l ++ [(k, v)] := by
  induction l with
  | nil => rfl
  | cons hd tl ih =>
    obtain ⟨k0, v0⟩ := hd
    unfold hasKey alookup at h
    by_cases hk : k0 = k
    · rw [if_pos hk] at h; simp at h
    · rw [if_neg hk] at h
      rw [aupsert, if_neg hk, List.cons_append, ih h]

theorem aupsert_comm_present {α : Type} (l : List (String × α))
    (A B : String) (x y : α) (hAB : A ≠ B) (hA : hasKey l A = true) :
    aupsert (aupsert l A x) B y = aupsert (aupsert l B y) A x := by
  induction l with
  | nil => unfold hasKey alookup at hA; simp at hA
  | cons hd tl ih =>
    obtain ⟨k0, v0⟩ := hd
    by_cases hkA : k0 = A
    · have hkB : ¬k0 = B := fun h => hAB (hkA.symm.trans h)
      simp [aupsert, hkA, hkB, hAB]
    · by_cases hkB : k0 = B
      · simp [aupsert, hkA, hkB, Ne.symm hAB]
      · unfold hasKey alookup at hA
        rw [if_neg hkA] at hA
        simp [aupsert, hkA, hkB, ih hA]

theorem map_attrs_matchRel (db : Database) (fd : FieldDescr) (name : String)
    (pm : ModelMeta) (ms : List ModelInst) (eager : List ModelInst) :
    (matchRel db fd name pm ms eager).map ModelInst.attrs =
      ms.map ModelInst.attrs := by
  cases fd with
  | attr => rfl
  | hasMany r fk => simp only [matchRel, List.map_map]; rfl
  | belongsTo r fk => simp only [matchRel, List.map_map]; rfl

theorem addEagerCons_congr (db : Database) (fd : FieldDescr)
    (pm : ModelMeta) (ms1 ms2 : List ModelInst) (sub : QueryState)
    (h : ms1.map ModelInst.attrs = ms2.map ModelInst.attrs) :
    addEagerCons db fd pm ms1 sub = addEagerCons db fd pm ms2 sub := by
  cases fd with
  | attr => rfl
  | hasMany r fk =>
    have e : ms1.map (fun m => getAttr m pm.keyName) =
        ms2.map (fun m => getAttr m pm.keyName) := by
      have e2 := congrArg
        (List.map (fun a => (alookup a pm.keyName).getD Value.undef)) h
      rw [List.map_map, List.map_map] at e2
      exact e2
    simp only [addEagerCons]
    rw [e]
  | belongsTo r fk =>
    have e : ms1.map (fun m => getAttr m fk) =
        ms2.map (fun m => getAttr m fk) := by
      have e2 := congrArg
        (List.map (fun a => (alookup a fk).getD Value.undef)) h
      rw [List.map_map, List.map_map] at e2
      exact e2
    simp only [addEagerCons]
    rw [e]

/-- The relation value Relation.match attaches onto a parent, as a
function of the parent's attribute record. -/
def matchValueFor (db : Database) (fd : FieldDescr) (pm : ModelMeta)
    (eager : List ModelInst) (a : Rec) : RelVal :=
  match fd with
  | .attr => .one none
  | .hasMany _ fk =>
    .many (eager.filter
      (fun e => getAttr e fk == (alookup a pm.keyName).getD Value.undef))
  | .belongsTo rEnt fk =>
    .one (eager.find?
      (fun e => getAttr e (getModel db rEnt).keyName ==
        (alookup a fk).getD Value.undef))

theorem matchRel_eq_map (db : Database) (fd : FieldDescr) (name : String)
    (pm : ModelMeta) (ms eager : List ModelInst) (r : String)
    (h : relatedEntity fd = some r) :
    matchRel db fd name pm ms eager =
      ms.map (fun m =>
        setRelated m name (matchValueFor db fd pm eager m.attrs)) := by
  cases fd with
  | attr => simp [relatedEntity] at h
  | hasMany r fk => rfl
  | belongsTo r fk => rfl

theorem loadRelWith_attrs (ex : QueryState → List ModelInst)
    (db : Database) (pm : ModelMeta) (ms : List ModelInst) (name : String)
    (c : EagerConstraint) :
    (loadRelWith ex db pm ms name c).map ModelInst.attrs =
      ms.map ModelInst.attrs := by
  cases hA : alookup pm.fields name with
  | none =>
    have h0 : loadRelWith ex db pm ms name c = ms := by
      unfold loadRelWith; rw [hA]
    rw [h0]
  | some fd =>
    have h1 : loadRelWith ex db pm ms name c =
        match relatedEntity fd with
        | none => ms
        | some rEnt => matchRel db fd name pm ms
            (ex (applyConstraint c (addEagerCons db fd pm ms
              (freshQuery (getModel db rEnt))))) := by
      unfold loadRelWith; rw [hA]
    cases hr : relatedEntity fd with
    | none => rw [h1, hr]
    | some r =>
      rw [h1, hr]
      exact map_attrs_matchRel db fd name pm ms _

theorem loadRelWith_comm (ex : QueryState → List ModelInst)
    (db : Database) (pm : ModelMeta) (ms : List ModelInst) (A B : String)
    (cA cB : EagerConstraint) (hAB : A ≠ B) :
    List.Forall₂ ModelEquiv
      (loadRelWith ex db pm (loadRelWith ex db pm ms A cA) B cB)
      (loadRelWith ex db pm (loadRelWith ex db pm ms B cB) A cA) := by
  cases hA : alookup pm.fields A with
  | none =>
    have idA : ∀ l, loadRelWith ex db pm l A cA = l := by
      intro l; unfold loadRelWith; rw [hA]
    rw [idA, idA]
    exact forall₂_equiv_refl _
  | some fdA =>
    cases hrA : relatedEntity fdA with
    | none =>
      have idA : ∀ l, loadRelWith ex db pm l A cA = l := by
        intro l
        unfold loadRelWith
        rw [hA]
        show (match relatedEntity fdA with
          | none => l
          | some rEnt => matchRel db fdA A pm l
              (ex (applyConstraint cA (addEagerCons db fdA pm l
                (freshQuery (getModel db rEnt)))))) = l
        rw [hrA]
      rw [idA, idA]
      exact forall₂_equiv_refl _
    | some rA =>
      have unfA : ∀ l, loadRelWith ex db pm l A cA =
          match relatedEntity fdA with
          | none => l
          | some rEnt => matchRel db fdA A pm l
              (ex (applyConstraint cA (addEagerCons db fdA pm l
                (freshQuery (getModel db rEnt))))) := by
        intro l; unfold loadRelWith; rw [hA]
      simp only [hrA] at unfA
      cases hB : alookup pm.fields B with
      | none =>
        have idB : ∀ l, loadRelWith ex db pm l B cB = l := by
          intro l; unfold loadRelWith; rw [hB]
        rw [idB, idB]
        exact forall₂_equiv_refl _
      | some fdB =>
        cases hrB : relatedEntity fdB with
        | none =>
          have idB : ∀ l, loadRelWith ex db pm l B cB = l := by
            intro l
            unfold loadRelWith
            rw [hB]
            show (match relatedEntity fdB with
              | none => l
              | some rEnt => matchRel db fdB B pm l
                  (ex (applyConstraint cB (addEagerCons db fdB pm l
                    (freshQuery (getModel db rEnt)))))) = l
            rw [hrB]
          rw [idB, idB]
          exact forall₂_equiv_refl _
        | some rB =>
          have unfB : ∀ l, loadRelWith ex db pm l B cB =
              match relatedEntity fdB with
              | none => l
              | some rEnt => matchRel db fdB B pm l
                  (ex (applyConstraint cB (addEagerCons db fdB pm l
                    (freshQuery (getModel db rEnt))))) := by
            intro l; unfold loadRelWith; rw [hB]
          simp only [hrB] at unfB
          rw [unfA ms, unfB ms, unfA (matchRel db fdB B pm ms _),
            unfB (matchRel db fdA A pm ms _)]
          rw [addEagerCons_congr db fdB pm (matchRel db fdA A pm ms _) ms
            (freshQuery (getModel db rB)) (map_attrs_matchRel db fdA A pm ms _)]
          rw [addEagerCons_congr db fdA pm (matchRel db fdB B pm ms _) ms
            (freshQuery (getModel db rA)) (map_attrs_matchRel db fdB B pm ms _)]
          rw [matchRel_eq_map db fdA A pm ms _ rA hrA,
            matchRel_eq_map db fdB B pm ms _ rB hrB,
            matchRel_eq_map db fdA A pm _ _ rA hrA,
            matchRel_eq_map db fdB B pm _ _ rB hrB,
            List.map_map, List.map_map]
          apply forall₂_map_pointwise
          intro m _
          exact setRelated_comm_equiv m A B hAB _ _

/-- C10. Eager loading is order-independent across distinct relation
names: registering with(A) then with(B) before get() produces the same
final model population — pairwise equal attribute records and
extensionally equal relation attributes — as registering with(B) then
with(A), for any starting query, any constraints and any store, at any
eager-load fuel. -/
theorem with_order_independent (f : Nat) (db : Database) (sts : Stores)
    (q : QueryState) (A B : String) (cA cB : EagerConstraint)
    (hAB : A ≠ B) :
    List.Forall₂ ModelEquiv
      (getFuel f db sts (withQ B cB (withQ A cA q)))
      (getFuel f db sts (withQ A cA (withQ B cB q))) := by
  cases f with
  | zero => exact List.Forall₂.nil
  | succ f =>
    have hget : ∀ q1 : QueryState, getFuel (f + 1) db sts q1 =
        if (select sts q1).isEmpty then select sts q1
        else q1.eagerLoad.foldl
          (fun ms nc =>
            loadRelWith (getFuel f db sts) db q1.model ms nc.1 nc.2)
          (select sts q1) := by
      intro q1
      rw [getFuel]
    rw [hget, hget]
    have hsel1 : select sts (withQ B cB (withQ A cA q)) = select sts q := rfl
    have hsel2 : select sts (withQ A cA (withQ B cB q)) = select sts q := rfl
    have hm1 : (withQ B cB (withQ A cA q)).model = q.model := rfl
    have hm2 : (withQ A cA (withQ B cB q)).model = q.model := rfl
    have he1 : (withQ B cB (withQ A cA q)).eagerLoad =
        aupsert (aupsert q.eagerLoad A cA) B cB := rfl
    have he2 : (withQ A cA (withQ B cB q)).eagerLoad =
        aupsert (aupsert q.eagerLoad B cB) A cA := rfl
    rw [hsel1, hsel2, hm1, hm2, he1, he2]
    cases hS : (select sts q).isEmpty with
    | true =>
      simp only [hS, if_true]
      exact forall₂_equiv_refl _
    | false =>
      simp only [hS, Bool.false_eq_true, if_false]
      by_cases hKA : hasKey q.eagerLoad A = true
      · rw [aupsert_comm_present q.eagerLoad A B cA cB hAB hKA]
        exact forall₂_equiv_refl _
      · by_cases hKB : hasKey q.eagerLoad B = true
        · rw [aupsert_comm_present q.eagerLoad B A cB cA (Ne.symm hAB) hKB]
          exact forall₂_equiv_refl _
        · rw [Bool.not_eq_true] at hKA hKB
          have hk2 : hasKey (q.eagerLoad ++ [(A, cA)]) B = false := by
            unfold hasKey
            rw [alookup_append]
            cases hEB : alookup q.eagerLoad B with
            | some c =>
              exfalso
              unfold hasKey at hKB
              rw [hEB] at hKB
              simp at hKB
            | none => simp [alookup, hAB]
          have hk2' : hasKey (q.eagerLoad ++ [(B, cB)]) A = false := by
            unfold hasKey
            rw [alookup_append]
            cases hEA : alookup q.eagerLoad A with
            | some c =>
              exfalso
              unfold hasKey at hKA
              rw [hEA] at hKA
              simp at hKA
            | none => simp [alookup, Ne.symm hAB]
          have e2 : aupsert (aupsert q.eagerLoad A cA) B cB =
              q.eagerLoad ++ [(A, cA), (B, cB)] := by
            rw [aupsert_absent _ _ _ hKA, aupsert_absent _ _ _ hk2,
              List.append_assoc]
            rfl
          have e2' : aupsert (aupsert q.eagerLoad B cB) A cA =
              q.eagerLoad ++ [(B, cB), (A, cA)] := by
            rw [aupsert_absent _ _ _ hKB, aupsert_absent _ _ _ hk2',
              List.append_assoc]
            rfl
          rw [e2, e2', List.foldl_append, List.foldl_append]
          simp only [List.foldl_cons, List.foldl_nil]
          exact loadRelWith_comm (getFuel f db sts) db q.model _ A B cA cB hAB

/-- Witness for C10: with(posts) then with(comments) against the revival
fixtures, versus the reverse registration order. -/
theorem with_order_independent_witness :
    ("posts" : String) ≠ "comments" ∧
    List.Forall₂ ModelEquiv
      (getFuel 1 reviveDb reviveStores
        (withQ "comments" .noop
          (withQ "posts" .noop (freshQuery reviveUsersMeta))))
      (getFuel 1 reviveDb reviveStores
        (withQ "posts" .noop
          (withQ "comments" .noop (freshQuery reviveUsersMeta)))) :=
  ⟨by decide,
    with_order_independent 1 reviveDb reviveStores
      (freshQuery reviveUsersMeta) "posts" "comments" .noop .noop
      (by decide)⟩

end VuexOrm
